import Mathlib

/-!
A verification development for the git-bisect job dispatcher.

The definitions below are shallow embeddings of the program's data model and
operations: the in-process stream bus (`app/streaming.py`), the bisect
executors (`app/bisect_core.py`, `app/bisect_runner.py`), and the job-store
lifecycle operations (`app/main.py`, `app/api.py`).  Machine state that the
program keeps in Python dicts is modelled as total functions with the dict's
default value; timestamps are naturals; database rows are plain records and
each SQL `UPDATE ... ; commit` is a record transformer.
-/

namespace BisectBot

/-! Section: Stream bus (`app/streaming.py`, class `JobStreamManager`) -/

/-- The constant `MAX_BUFFER`: the manager's `max_buffer_size`, `1000` by default and in
the process-wide singleton created by `get_stream_manager`. -/
def MAX_BUFFER : Nat := 1000

/-- The trim step of `JobStreamManager.publish`: after appending, if the
buffer length exceeds `maxSize` the buffer is replaced by its last `maxSize`
elements (`buffer[-max_buffer_size:]`), dropping the oldest. -/
def trimBuffer (maxSize : Nat) (buf : List α) : List α :=
  if buf.length > maxSize then buf.drop (buf.length - maxSize) else buf

/-- One `publish` call restricted to a single job's buffer: append the
message, then trim. -/
def publishBuf (maxSize : Nat) (buf : List α) (m : α) : List α :=
  trimBuffer maxSize (buf ++ [m])

/-- A sequence of `publish` calls on one job's buffer, starting from the
empty buffer a fresh `defaultdict(list)` entry holds. -/
def publishAll (maxSize : Nat) (msgs : List α) : List α :=
  msgs.foldl (publishBuf maxSize) []

theorem trimBuffer_of_le (maxSize : Nat) (buf : List α) (h : buf.length ≤ maxSize) :
    trimBuffer maxSize buf = buf := by
  simp [trimBuffer, Nat.not_lt_of_le h]

theorem trimBuffer_length_le (maxSize : Nat) (buf : List α) :
    (trimBuffer maxSize buf).length ≤ max maxSize buf.length := by
  by_cases h : buf.length > maxSize
  · simp [trimBuffer, h]
  · simp only [trimBuffer, if_neg h]
    omega

/-- After any sequence of publishes the buffer is exactly the most recent
`maxSize` messages (all of them when fewer were published). -/
theorem publishAll_eq_drop (maxSize : Nat) (msgs : List α) :
    publishAll maxSize msgs = msgs.drop (msgs.length - maxSize) := by
  induction msgs using List.reverseRecOn with
  | nil => simp [publishAll]
  | append_singleton l m ih =>
    have hfold : publishAll maxSize (l ++ [m]) =
        publishBuf maxSize (publishAll maxSize l) m := by
      simp [publishAll, List.foldl_append]
    rw [hfold, ih]
    by_cases hlen : l.length ≤ maxSize
    · by_cases heq : l.length = maxSize
      · -- buffer is exactly full: appending drops the single oldest element
        rcases Nat.eq_zero_or_pos maxSize with hM | hM
        · subst heq
          simp_all [publishBuf, trimBuffer]
        · have hdrop0 : l.length - maxSize = 0 := by omega
          rw [hdrop0, List.drop_zero]
          have hlen2 : (l ++ [m]).length = maxSize + 1 := by simp [heq]
          have : publishBuf maxSize l m = (l ++ [m]).drop 1 := by
            simp [publishBuf, trimBuffer, hlen2, heq]
          rw [this]
          congr 1
          simp
          omega
      · -- room left: no trimming happens
        have hlt : l.length < maxSize := by omega
        have h1 : publishBuf maxSize l m = l ++ [m] := by
          have : (l ++ [m]).length ≤ maxSize := by simp; omega
          simp [publishBuf, trimBuffer_of_le _ _ this]
        rw [show l.length - maxSize = 0 by omega, List.drop_zero, h1]
        rw [show (l ++ [m]).length - maxSize = 0 by simp; omega, List.drop_zero]
    · -- over-long prefix (cannot really occur from the empty buffer, but the
      -- drop formula still covers it)
      push_neg at hlen
      have hdlen : (l.drop (l.length - maxSize)).length = maxSize := by
        simp
        omega
      have hlen2 : (l.drop (l.length - maxSize) ++ [m]).length = maxSize + 1 := by
        simp [hdlen]
      rcases Nat.eq_zero_or_pos maxSize with hM | hM
      · subst hM
        simp [publishBuf, trimBuffer, List.drop_eq_nil_of_le]
      · have : publishBuf maxSize (l.drop (l.length - maxSize)) m =
            (l.drop (l.length - maxSize) ++ [m]).drop 1 := by
          simp [publishBuf, trimBuffer, hlen2]
        rw [this]
        rw [List.drop_append_of_le_length (by omega : 1 ≤ (l.drop (l.length - maxSize)).length)]
        rw [List.drop_drop]
        rw [List.drop_append_of_le_length (by simp; omega : (l ++ [m]).length - maxSize ≤ l.length)]
        congr 2
        simp
        omega

/-! Subsection: Subscriber ordering (`JobStreamManager.subscribe` + `publish`)

`subscribe` keeps an integer cursor into the job's buffer.  Under the lock it
reads `buffer[current_index:]`, yields those messages, and sets
`current_index = len(buffer)`; `publish` appends under the same lock and
trims.  We model one job's buffer together with one subscriber's cursor and
the list of messages it has yielded so far.  Messages are identified by their
publish index (`nextId` counts publishes), so "publish order" is the order
`0, 1, 2, …`.  Keepalive messages are synthesised per subscriber and never
enter the buffer, so they do not appear in this model. -/

/-- The single-job view of the stream manager shared by one publisher and one
subscriber: the job's buffer (holding publish indices), the number of
publishes so far, the subscriber's `current_index` cursor, and everything the
subscriber has yielded (in order). -/
structure SubSession where
  buffer : List Nat
  nextId : Nat
  cursor : Nat
  yielded : List Nat
deriving DecidableEq

/-- One interleaving step: either `publish` runs for this job, or the
subscriber's loop body runs one iteration of its read-and-yield section. -/
inductive SubStep where
  | publish
  | read
deriving DecidableEq

/-- Effect of one step on the session (each alternative is exactly the
critical section each side executes under `self._lock`). -/
def stepSession (maxSize : Nat) (s : SubSession) : SubStep → SubSession
  | .publish =>
      { s with buffer := publishBuf maxSize s.buffer s.nextId, nextId := s.nextId + 1 }
  | .read =>
      { s with yielded := s.yielded ++ s.buffer.drop s.cursor, cursor := s.buffer.length }

/-- Run an interleaving from the initial state: empty buffer, no publishes,
subscriber starting at index 0 having yielded nothing. -/
def runSession (maxSize : Nat) (steps : List SubStep) : SubSession :=
  steps.foldl (stepSession maxSize) ⟨[], 0, 0, []⟩

/-- The state invariant tying the subscriber's cursor to the buffer. -/
def SessionInv (maxSize : Nat) (s : SubSession) : Prop :=
  s.cursor ≤ s.buffer.length ∧
  s.buffer.length ≤ maxSize ∧
  (s.yielded ++ s.buffer.drop s.cursor).Sorted (· < ·) ∧
  (∀ x ∈ s.yielded, x < s.nextId) ∧
  (∀ x ∈ s.buffer, x < s.nextId)

theorem sessionInv_init (maxSize : Nat) : SessionInv maxSize ⟨[], 0, 0, []⟩ := by
  refine ⟨by simp, by simp, by simp, by simp, by simp⟩

theorem drop_sublist_self (n : Nat) (l : List α) : List.Sublist (l.drop n) l :=
  (List.IsSuffix.sublist ⟨l.take n, List.take_append_drop n l⟩)

theorem publishBuf_length (maxSize : Nat) (buf : List α) (m : α) :
    (publishBuf maxSize buf m).length = min (buf.length + 1) maxSize := by
  by_cases h : (buf ++ [m]).length > maxSize
  · simp only [publishBuf, trimBuffer, if_pos h]
    simp at h ⊢
    omega
  · simp only [publishBuf, trimBuffer, if_neg h]
    simp at h ⊢
    omega

theorem publishBuf_eq_drop (maxSize : Nat) (buf : List α) (m : α) :
    ∃ d : Nat, publishBuf maxSize buf m = (buf ++ [m]).drop d := by
  by_cases h : (buf ++ [m]).length > maxSize
  · exact ⟨(buf ++ [m]).length - maxSize, by simp only [publishBuf, trimBuffer, if_pos h]⟩
  · exact ⟨0, by simp only [publishBuf, trimBuffer, if_neg h, List.drop_zero]⟩

theorem sessionInv_step (maxSize : Nat) (s : SubSession) (st : SubStep)
    (h : SessionInv maxSize s) : SessionInv maxSize (stepSession maxSize s st) := by
  obtain ⟨hc, hb, hsort, hy, hbuf⟩ := h
  cases st with
  | read =>
    refine ⟨le_refl _, hb, ?_, ?_, fun x hx => hbuf x hx⟩
    · simpa [stepSession, List.append_assoc] using hsort
    · intro x hx
      simp [stepSession] at hx
      rcases hx with hx | hx
      · exact hy x hx
      · exact hbuf x (List.mem_of_mem_drop hx)
  | publish =>
    have hsort2 : (s.yielded ++ (s.buffer.drop s.cursor ++ [s.nextId])).Sorted (· < ·) := by
      rw [← List.append_assoc]
      rw [List.Sorted, List.pairwise_append]
      refine ⟨hsort, List.pairwise_singleton _ _, ?_⟩
      intro x hx y hy'
      simp at hy'
      subst hy'
      simp at hx
      rcases hx with hx | hx
      · exact hy x hx
      · exact hbuf x (List.mem_of_mem_drop hx)
    -- the trimmed buffer is obtained from the appended buffer by dropping a
    -- prefix, so the part past the cursor is a suffix of the old part past
    -- the cursor plus the new message
    obtain ⟨d, hd⟩ := publishBuf_eq_drop maxSize s.buffer s.nextId
    have hlen : (publishBuf maxSize s.buffer s.nextId).length ≤ maxSize := by
      rw [publishBuf_length]
      omega
    have hlenge : s.buffer.length ≤ (publishBuf maxSize s.buffer s.nextId).length := by
      rw [publishBuf_length]
      omega
    refine ⟨le_trans hc hlenge, hlen, ?_, ?_, ?_⟩
    · -- sortedness of yielded ++ (new buffer past cursor)
      have hsubl : List.Sublist ((publishBuf maxSize s.buffer s.nextId).drop s.cursor)
          (s.buffer.drop s.cursor ++ [s.nextId]) := by
        have key : List.drop s.cursor (List.drop d (s.buffer ++ [s.nextId]))
            = List.drop d (List.drop s.cursor (s.buffer ++ [s.nextId])) := by
          rw [List.drop_drop, List.drop_drop, Nat.add_comm]
        rw [hd, key, List.drop_append_of_le_length hc]
        exact drop_sublist_self d _
      have hsubl2 : List.Sublist
          (s.yielded ++ (publishBuf maxSize s.buffer s.nextId).drop s.cursor)
          (s.yielded ++ (s.buffer.drop s.cursor ++ [s.nextId])) :=
        List.Sublist.append_left hsubl _
      exact List.Pairwise.sublist hsubl2 hsort2
    · intro x hx
      simp only [stepSession] at hx ⊢
      exact lt_trans (hy x hx) (Nat.lt_succ_self _)
    · intro x hx
      simp only [stepSession] at hx ⊢
      rw [hd] at hx
      have hx2 := List.mem_of_mem_drop hx
      simp at hx2
      rcases hx2 with hx2 | hx2
      · exact lt_trans (hbuf x hx2) (Nat.lt_succ_self _)
      · omega

theorem sessionInv_run (maxSize : Nat) (steps : List SubStep) :
    SessionInv maxSize (runSession maxSize steps) := by
  rw [runSession]
  generalize hinit : (⟨[], 0, 0, []⟩ : SubSession) = s0
  have h0 : SessionInv maxSize s0 := hinit ▸ sessionInv_init maxSize
  clear hinit
  induction steps generalizing s0 with
  | nil => simpa using h0
  | cons st rest ih =>
    simp only [List.foldl_cons]
    exact ih _ (sessionInv_step maxSize s0 st h0)

/-- Claim C7. For every job and every interleaving of publish operations with
one subscriber's reads, the sequence of non-keepalive messages yielded to
that subscriber is strictly increasing in publish index — it appears in
exactly the order in which the messages were published, with no reordering
and no duplicate delivery — and contains only messages that were actually
published. -/
theorem C7_subscriber_order (steps : List SubStep) :
    (runSession MAX_BUFFER steps).yielded.Sorted (· < ·) ∧
    (∀ x ∈ (runSession MAX_BUFFER steps).yielded, x < (runSession MAX_BUFFER steps).nextId) := by
  obtain ⟨_, _, hsort, hy, _⟩ := sessionInv_run MAX_BUFFER steps
  refine ⟨?_, hy⟩
  exact List.Pairwise.sublist (List.sublist_append_left _ _) hsort

/-- Claim C8. For every job and every sequence of publish operations, after each
publish completes the job's buffer holds at most `MAX_BUFFER` (= 1000)
messages, and when the bound is exceeded the messages dropped are exactly the
oldest ones: the buffer retains precisely the most recent `MAX_BUFFER`
messages of the published sequence. -/
theorem C8_publish_bounded_drops_oldest (msgs : List α) :
    (publishAll MAX_BUFFER msgs).length ≤ MAX_BUFFER ∧
    publishAll MAX_BUFFER msgs = msgs.drop (msgs.length - MAX_BUFFER) := by
  constructor
  · rw [publishAll_eq_drop]
    simp
    omega
  · exact publishAll_eq_drop _ _

/-! Subsection: Whole-manager state and `cleanup`

`JobStreamManager` keeps `_buffers : defaultdict(list)`,
`_subscribers : defaultdict(set)` and `_completed : dict` (read through
`.get(job_id, False)`).  Observably each dict is a total function from job id
to its value, with the default for absent keys; `pop(job_id, None)` restores
the default for that key and never raises.  Subscriber events are opaque, so
the subscriber set is modelled as a list of subscriber tokens. -/

/-- The stream manager's per-job state maps. -/
structure StreamState (Msg : Type) where
  buffers : Nat → List Msg
  subscribers : Nat → List Nat
  completed : Nat → Bool

/-- The method `JobStreamManager.cleanup(job_id)`: `pop` the job's buffer, subscriber
set and completion flag (each `pop` uses a default, so a missing key is not
an error). -/
def cleanup (s : StreamState Msg) (jobId : Nat) : StreamState Msg :=
  { buffers := fun j => if j = jobId then [] else s.buffers j,
    subscribers := fun j => if j = jobId then [] else s.subscribers j,
    completed := fun j => if j = jobId then false else s.completed j }

/-- Claim C10. The operation `cleanup` on one job removes only that job's buffer, subscriber
set and completion flag, leaving every other job's state unchanged; and
`cleanup` on a job id with no recorded state (empty buffer, no subscribers,
no completion flag) is a no-op that raises no error. -/
theorem C10_cleanup_frame (s : StreamState Msg) (jobId j : Nat) (hne : j ≠ jobId) :
    ((cleanup s jobId).buffers j = s.buffers j ∧
     (cleanup s jobId).subscribers j = s.subscribers j ∧
     (cleanup s jobId).completed j = s.completed j) ∧
    (s.buffers jobId = [] → s.subscribers jobId = [] → s.completed jobId = false →
      cleanup s jobId = s) := by
  constructor
  · exact ⟨by simp [cleanup, hne], by simp [cleanup, hne], by simp [cleanup, hne]⟩
  · intro hb hs hc
    have hb2 : (cleanup s jobId).buffers = s.buffers := by
      funext j'
      by_cases h : j' = jobId <;> simp [cleanup, h, hb]
    have hs2 : (cleanup s jobId).subscribers = s.subscribers := by
      funext j'
      by_cases h : j' = jobId <;> simp [cleanup, h, hs]
    have hc2 : (cleanup s jobId).completed = s.completed := by
      funext j'
      by_cases h : j' = jobId <;> simp [cleanup, h, hc]
    calc cleanup s jobId
        = ⟨(cleanup s jobId).buffers, (cleanup s jobId).subscribers,
            (cleanup s jobId).completed⟩ := rfl
      _ = ⟨s.buffers, s.subscribers, s.completed⟩ := by rw [hb2, hs2, hc2]
      _ = s := rfl

/-- Witness for C10 at a concrete state: job 1 has a one-message buffer,
job 2 is untouched by cleaning up job 1. -/
theorem C10_cleanup_frame_witness :
    (cleanup (⟨fun i => if i = 1 then [5] else [], fun _ => [], fun _ => false⟩ :
        StreamState Nat) 1).buffers 2 =
      (⟨fun i => if i = 1 then [5] else [], fun _ => [], fun _ => false⟩ :
        StreamState Nat).buffers 2 :=
  (C10_cleanup_frame
    (⟨fun i => if i = 1 then [5] else [], fun _ => [], fun _ => false⟩ : StreamState Nat)
    1 2 (by decide)).1.1

/-! Section: Docker-based bisect runner (`app/bisect_runner.py`)

`BisectRunner._run_bisect_search` performs an explicit binary search over the
list of candidate commits (ordered from the good side to the bad side, the
last one being the bad commit).  `_test_commit` runs the user's test for one
commit in a container and reports whether the commit is bad; here it is the
oracle `isBad`, indexed by position in the commit list. -/

/-- The `while left < right` loop of `_run_bisect_search`:
`mid = (left + right) // 2`; a bad probe moves `right` to `mid`, a good probe
moves `left` to `mid + 1`; on exit `left == right` is returned. -/
def bisectLoop (isBad : Nat → Bool) (left right : Nat) : Nat :=
  if left < right then
    let mid := (left + right) / 2
    if isBad mid then bisectLoop isBad left mid
    else bisectLoop isBad (mid + 1) right
  else left
termination_by right - left
decreasing_by
  · have h2 : (left + right) / 2 < right := by omega
    omega
  · have h2 : left ≤ (left + right) / 2 := by omega
    omega

/-- Result record of the executors (`BisectResult` in `app/bisect_core.py`).
The accumulated human-readable log text is not observed by any claim and is
carried opaquely in `output`. -/
structure BisectResultM where
  success : Bool
  culprit_sha : Option String := none
  culprit_message : Option String := none
  output : Option String := none
  error : Option String := none
deriving DecidableEq

/-- The method `BisectRunner._run_bisect_search`: binary search over `commits` (indices
`0 .. commits.length - 1`), returning success with the commit at the final
index; the culprit's subject line is fetched by `_get_commit_message`,
abstracted as `getMsg`. -/
def runBisectSearch (isBad : Nat → Bool) (getMsg : String → Option String)
    (commits : List String) : BisectResultM :=
  let idx := bisectLoop isBad 0 (commits.length - 1)
  let culprit := commits.getD idx ""
  { success := true
    culprit_sha := some culprit
    culprit_message := getMsg culprit
    output := none }

/-- On a range where `isBad` is the threshold predicate of a first-bad index
`k` lying inside `[left, right]`, the loop converges to `k`. -/
theorem bisectLoop_finds_threshold (isBad : Nat → Bool) (k : Nat) :
    ∀ fuel left right, right - left ≤ fuel → left ≤ k → k ≤ right →
    (∀ i, left ≤ i → i < k → isBad i = false) →
    (∀ i, k ≤ i → i ≤ right → isBad i = true) →
    bisectLoop isBad left right = k := by
  intro fuel
  induction fuel with
  | zero =>
    intro left right hfuel hlk hkr _ _
    have h1 : left = right := by omega
    subst h1
    have h2 : k = left := by omega
    subst h2
    rw [bisectLoop, if_neg (Nat.lt_irrefl k)]
  | succ n ih =>
    intro left right hfuel hlk hkr hgood hbad
    rw [bisectLoop]
    by_cases hlr : left < right
    · simp only [if_pos hlr]
      have hmid1 : left ≤ (left + right) / 2 := by omega
      have hmid2 : (left + right) / 2 < right := by omega
      by_cases hb : isBad ((left + right) / 2)
      · simp only [hb, if_true]
        have hk : k ≤ (left + right) / 2 := by
          by_contra hcon
          push_neg at hcon
          have := hgood ((left + right) / 2) hmid1 hcon
          rw [this] at hb
          exact Bool.false_ne_true hb
        exact ih left ((left + right) / 2) (by omega) hlk hk hgood
          (fun i hki hir => hbad i hki (by omega))
      · simp only [hb, if_false]
        have hk : (left + right) / 2 < k := by
          by_contra hcon
          push_neg at hcon
          have := hbad ((left + right) / 2) hcon (by omega)
          exact hb this
        exact ih ((left + right) / 2 + 1) right (by omega) (by omega) hkr
          (fun i hli hik => hgood i (by omega) hik) hbad
    · simp only [if_neg hlr]
      omega

/-- Claim C1. For every non-empty list of candidate commits ordered from the
good side to the bad side, if the per-commit test is monotone — every commit
strictly before index `k` tests good, and every commit at index `k` or later
(including the last) tests bad — then `_run_bisect_search` returns
`success = true` and `culprit_sha` equal to the commit at index `k`, the
unique first commit that tests bad. -/
theorem C1_bisect_search_first_bad (commits : List String) (isBad : Nat → Bool)
    (getMsg : String → Option String) (k : Nat)
    (hne : commits ≠ [])
    (hk : k < commits.length)
    (hgood : ∀ i, i < k → isBad i = false)
    (hbad : ∀ i, i < commits.length → k ≤ i → isBad i = true) :
    (runBisectSearch isBad getMsg commits).success = true ∧
    (runBisectSearch isBad getMsg commits).culprit_sha = some (commits.getD k "") := by
  have hlen : 0 < commits.length := List.length_pos.mpr hne
  have hloop : bisectLoop isBad 0 (commits.length - 1) = k :=
    bisectLoop_finds_threshold isBad k (commits.length - 1) 0 (commits.length - 1)
      (le_refl _) (Nat.zero_le _) (by omega)
      (fun i _ hik => hgood i hik)
      (fun i hki hir => hbad i (by omega) hki)
  refine ⟨rfl, ?_⟩
  simp only [runBisectSearch, hloop]

/-- Witness for C1: five commits, the bad behaviour starting at index 2. -/
theorem C1_bisect_search_first_bad_witness :
    (runBisectSearch (fun i => decide (2 ≤ i)) (fun _ => none)
        (["c0", "c1", "c2", "c3", "c4"])).success = true ∧
    (runBisectSearch (fun i => decide (2 ≤ i)) (fun _ => none)
        (["c0", "c1", "c2", "c3", "c4"])).culprit_sha =
      some ((["c0", "c1", "c2", "c3", "c4"]).getD 2 "") :=
  C1_bisect_search_first_bad (["c0", "c1", "c2", "c3", "c4"])
    (fun i => decide (2 ≤ i)) (fun _ => none) 2
    (by decide) (by decide)
    (fun i hik => by simp; omega)
    (fun i _ hki => by simp; omega)

/-! Section: Local bisect executor (`app/bisect_core.py`)

`run_bisect` drives `git bisect run` and then scans the transcript
(`stdout + stderr` split on newlines) for the sentinel line
`<sha> is the first bad commit`.  Lines are lists of characters; Python's
`needle in line` is `hasSubstr`, Python's `line.split()` is `pyWords`. -/

/-- Python's substring operator `needle in haystack` over characters. -/
def hasSubstr (needle : List Char) : List Char → Bool
  | [] => needle.isEmpty
  | c :: rest => needle.isPrefixOf (c :: rest) || hasSubstr needle rest

/-- Python's `str.split()` with no separator: split on runs of whitespace,
producing no empty tokens. -/
def pyWords : List Char → List (List Char)
  | [] => []
  | c :: cs =>
    if c.isWhitespace then pyWords cs
    else (c :: cs.takeWhile (fun d => !d.isWhitespace))
      :: pyWords (cs.dropWhile (fun d => !d.isWhitespace))
termination_by l => l.length
decreasing_by
  · simp
  · exact Nat.lt_succ_of_le (List.Sublist.length_le (List.dropWhile_sublist _))

/-- The sentinel substring `run_bisect` looks for in each transcript line. -/
def sentinel : List Char := ("is the first bad commit").toList

/-- The culprit-scanning loop of `run_bisect`: take the first transcript
line that contains the sentinel and has a nonempty token list (`if parts:`
guards the break), succeed with the line's first token as `culprit_sha` and
the commit subject fetched by `git log -1 --pretty=%s` (oracle `getMsg`);
with no such line, fail with the fixed error message (`result.error` is
still `None` at this point — the only earlier assignment returns early). -/
def parseBisectRun (getMsg : String → Option String)
    (lines : List (List Char)) : BisectResultM :=
  match lines.find? (fun line => hasSubstr sentinel line && !(pyWords line).isEmpty) with
  | some line =>
      let sha := String.mk ((pyWords line).headD [])
      { success := true
        culprit_sha := some sha
        culprit_message := getMsg sha
        output := none }
  | none =>
      { success := false
        error := some ("Bisect did not find a culprit commit") }

theorem hasSubstr_head_mem (c : Char) (tail l : List Char)
    (h : hasSubstr (c :: tail) l = true) : c ∈ l := by
  induction l with
  | nil => simp [hasSubstr] at h
  | cons x xs ih =>
    rw [hasSubstr, Bool.or_eq_true] at h
    rcases h with h1 | h2
    · rw [List.isPrefixOf_cons₂, Bool.and_eq_true] at h1
      have hc : c = x := by simpa using h1.1
      exact hc ▸ List.mem_cons_self _ _
    · exact List.mem_cons_of_mem _ (ih h2)

theorem pyWords_ne_nil (l : List Char) (c : Char) (hc : c ∈ l)
    (hw : c.isWhitespace = false) : (pyWords l).isEmpty = false := by
  induction l with
  | nil => simp at hc
  | cons x xs ih =>
    rw [pyWords]
    by_cases hx : x.isWhitespace
    · simp only [hx, if_true]
      rcases List.mem_cons.mp hc with hcx | hcxs
      · subst hcx
        rw [hx] at hw
        exact absurd hw (by simp)
      · exact ih hcxs
    · simp [hx]

theorem sentinel_line_has_token (l : List Char) (h : hasSubstr sentinel l = true) :
    (pyWords l).isEmpty = false := by
  have hsent : sentinel = 'i' :: (("s the first bad commit").toList) := by decide
  rw [hsent] at h
  have hi : 'i' ∈ l := hasSubstr_head_mem 'i' _ l h
  exact pyWords_ne_nil l 'i' hi (by decide)

/-- A sentinel-bearing line always has a first token, so the token guard in
the scanning loop never skips a matching line. -/
theorem findCulprit_pred_eq :
    (fun line => hasSubstr sentinel line && !(pyWords line).isEmpty)
      = (fun line => hasSubstr sentinel line) := by
  funext line
  by_cases h : hasSubstr sentinel line
  · simp [h, sentinel_line_has_token line h]
  · simp [h]

/-- Claim C5. For every bisect-run transcript: the result succeeds iff some
line contains the sentinel `is the first bad commit`; in that case
`culprit_sha` is the first whitespace-separated token of the first such
line; with no match the result fails with the error
`Bisect did not find a culprit commit`. -/
theorem C5_sentinel_parsing (getMsg : String → Option String)
    (lines : List (List Char)) :
    ((parseBisectRun getMsg lines).success
        = lines.any (fun l => hasSubstr sentinel l)) ∧
    (∀ l, lines.find? (fun l => hasSubstr sentinel l) = some l →
        (parseBisectRun getMsg lines).culprit_sha
          = some (String.mk ((pyWords l).headD []))) ∧
    (lines.any (fun l => hasSubstr sentinel l) = false →
        (parseBisectRun getMsg lines).success = false ∧
        (parseBisectRun getMsg lines).error
          = some ("Bisect did not find a culprit commit")) := by
  refine ⟨?_, ?_, ?_⟩
  · rw [parseBisectRun, findCulprit_pred_eq]
    cases hf : lines.find? (fun l => hasSubstr sentinel l) with
    | some line =>
      have hmem := List.mem_of_find?_eq_some hf
      have hp := List.find?_some hf
      simp only
      exact (List.any_eq_true.mpr ⟨line, hmem, hp⟩).symm
    | none =>
      have hnone : lines.any (fun l => hasSubstr sentinel l) = false := by
        rw [List.any_eq_false]
        intro x hx
        have := List.find?_eq_none.mp hf x hx
        simpa using this
      simp only [hnone]
  · intro l hl
    rw [parseBisectRun, findCulprit_pred_eq, hl]
  · intro hany
    have hf : lines.find? (fun l => hasSubstr sentinel l) = none := by
      rw [List.find?_eq_none]
      intro x hx
      have := (List.any_eq_false.mp hany) x hx
      simpa using this
    rw [parseBisectRun, findCulprit_pred_eq, hf]
    exact ⟨rfl, rfl⟩

/-- Witness for C5 on a concrete transcript whose second line carries the
sentinel. -/
theorem C5_sentinel_parsing_witness :
    (parseBisectRun (fun _ => none)
        ([("running test").toList, ("abc123 is the first bad commit").toList])).culprit_sha
      = some (String.mk ((pyWords (("abc123 is the first bad commit").toList)).headD [])) :=
  (C5_sentinel_parsing (fun _ => none)
      ([("running test").toList, ("abc123 is the first bad commit").toList])).2.1
    (("abc123 is the first bad commit").toList) (by decide)

/-! Subsection: Clone step (`clone_repo`, `run_bisect_on_clone`) -/

/-- The function `clone_repo`: run `git clone`; on non-zero exit report failure with the
message `Failed to clone: <stderr>`. -/
def clone_repo (exitCode : Int) (stderr : String) : Bool × String :=
  if exitCode ≠ 0 then (false, ("Failed to clone: ") ++ stderr) else (true, "")

/-- The function `run_bisect_on_clone`: clone first; only when the clone succeeds run the
bisect (whose would-be result is the parameter `bisectResult`). -/
def run_bisect_on_clone (exitCode : Int) (stderr : String)
    (bisectResult : BisectResultM) : BisectResultM :=
  let r := clone_repo exitCode stderr
  if r.1 then bisectResult
  else { success := false, error := some r.2 }

theorem isPrefixOf_append_right (l₁ l₂ t : List Char)
    (h : l₁.isPrefixOf l₂ = true) : l₁.isPrefixOf (l₂ ++ t) = true := by
  induction l₁ generalizing l₂ with
  | nil => simp
  | cons a as ih =>
    cases l₂ with
    | nil => simp [List.isPrefixOf] at h
    | cons b bs =>
      rw [List.isPrefixOf_cons₂, Bool.and_eq_true] at h
      rw [List.cons_append, List.isPrefixOf_cons₂, Bool.and_eq_true]
      exact ⟨h.1, ih bs h.2⟩

/-- Counterexample to claim C6. A failed clone (exit 1, stderr `x`) produces the
error message `Failed to clone: x`, which does not begin with `clone:` as
the claim states. -/
theorem C6_clone_message_counterexample :
    (run_bisect_on_clone 1 "x" { success := true }).success = false ∧
    (run_bisect_on_clone 1 "x" { success := true }).error
      = some ("Failed to clone: x") ∧
    (("clone:").toList.isPrefixOf (("Failed to clone: x").toList)) = false := by
  refine ⟨by decide, by decide, by decide⟩

/-- Claim C6 as amended. For every clone that fails (non-zero exit of the clone
step), the executor returns `success = false` with an error message that
begins with `Failed to clone:` (followed by the clone step's stderr), and
does not run the bisect: the result is independent of what the bisect would
have produced. -/
theorem C6_clone_failure_no_bisect (exitCode : Int) (stderr : String)
    (bisectResult : BisectResultM) (h : exitCode ≠ 0) :
    run_bisect_on_clone exitCode stderr bisectResult
      = { success := false, error := some (("Failed to clone: ") ++ stderr) } ∧
    (("Failed to clone:").toList.isPrefixOf
        ((("Failed to clone: ") ++ stderr).toList)) = true := by
  constructor
  · rw [run_bisect_on_clone, clone_repo, if_pos h]
    simp
  · have hdata : ((("Failed to clone: ") ++ stderr)).toList
        = ("Failed to clone: ").toList ++ stderr.toList := by
      simp [String.toList]
    rw [hdata]
    exact isPrefixOf_append_right _ _ _ (by decide)

/-- Witness for C6 (amended) at exit code 1 and stderr `fatal: not found`. -/
theorem C6_clone_failure_no_bisect_witness :
    run_bisect_on_clone 1 "fatal: not found" { success := true }
      = { success := false, error := some (("Failed to clone: ") ++ "fatal: not found") } ∧
    (("Failed to clone:").toList.isPrefixOf
        ((("Failed to clone: ") ++ "fatal: not found").toList)) = true :=
  C6_clone_failure_no_bisect 1 "fatal: not found" { success := true } (by decide)

/-! Section: Job store (`app/models.py`, `app/main.py`, `app/api.py`)

`BisectJob` rows are records; each SQLAlchemy `UPDATE …; db.commit()` block
is a record transformer.  Timestamps are naturals, the in-memory
`running_jobs` map is the list of job ids this instance is executing. -/

/-- The enum `JobStatus` from `app/models.py`. -/
inductive JobStatus where
  | pending
  | running
  | success
  | failed
  | timeout
  | cancelled
deriving DecidableEq

/-- The `bisect_jobs` row (`BisectJob` in `app/models.py`), restricted to
the columns the lifecycle operations read or write. -/
structure BisectJob where
  id : Nat
  installation_id : Nat
  requested_by : Option String
  repo_owner : Option String
  repo_name : Option String
  good_sha : String
  bad_sha : String
  test_command : String
  docker_image : Option String
  status : JobStatus
  started_at : Option Nat
  completed_at : Option Nat
  worker_id : Option String
  heartbeat_at : Option Nat
  attempt_count : Nat
  culprit_sha : Option String
  culprit_message : Option String
  error_message : Option String
  output_log : Option String
  created_at : Nat
deriving DecidableEq

/-- The constant `MAX_JOB_ATTEMPTS` from `app/main.py`. -/
def MAX_JOB_ATTEMPTS : Nat := 3

/-- The selection step: `process_pending_jobs` selects PENDING rows (FIFO,
`FOR UPDATE SKIP LOCKED`) and `start_job`'s success path creates the
execution task and records the job in the in-memory `running_jobs` map.
This step commits no change to the selected row. -/
def startJobSelect (running : List Nat) (job : BisectJob) : List Nat × BisectJob :=
  (job.id :: running, job)

/-- The first commit of `run_bisect_job_sync` (in its own session, in the
worker thread): mark the row RUNNING, stamp `started_at` and `heartbeat_at`
with the current time, set `worker_id` and increment `attempt_count`. -/
def markRunning (job : BisectJob) (workerId : String) (now : Nat) : BisectJob :=
  { job with status := .running
             started_at := some now
             heartbeat_at := some now
             worker_id := some workerId
             attempt_count := job.attempt_count + 1 }

/-- The completion commit of `run_bisect_job_sync`: final status from the
bisect result, `completed_at`, and the outcome columns.  `worker_id` and
`heartbeat_at` are not assigned in this block. -/
def completeJob (job : BisectJob) (r : BisectResultM) (now : Nat) : BisectJob :=
  { job with status := if r.success then .success else .failed
             completed_at := some now
             culprit_sha := r.culprit_sha
             culprit_message := r.culprit_message
             error_message := r.error
             output_log := r.output }

/-- The function `update_heartbeat` (`app/main.py`): refresh `heartbeat_at` iff the row
is RUNNING. -/
def update_heartbeat (job : BisectJob) (now : Nat) : BisectJob :=
  if job.status = .running then { job with heartbeat_at := some now } else job

/-- The endpoint `cancel_job` (`app/api.py`) after its guards: PENDING or RUNNING rows
become CANCELLED with `completed_at` and an audit message; any other status
is rejected with HTTP 400 and the row is unchanged. -/
def cancelJob (job : BisectJob) (actor : String) (now : Nat) : Except Nat BisectJob :=
  if job.status = .pending ∨ job.status = .running then
    .ok { job with status := .cancelled
                   completed_at := some now
                   error_message := some (("Job cancelled by user ") ++ actor) }
  else .error 400

/-- The heartbeat-staleness filter of `recover_stale_jobs`:
`heartbeat_at < stale_threshold` (SQL `NULL` compares false). -/
def staleHeartbeat (hb : Option Nat) (cutoff : Nat) : Bool :=
  match hb with
  | some h => decide (h < cutoff)
  | none => false

/-- One row's treatment by `recover_stale_jobs`: rows must be RUNNING with a
heartbeat older than the cutoff (`now − STALE_JOB_THRESHOLD`) and
`attempt_count < MAX_JOB_ATTEMPTS`; rows in this instance's `running_jobs`
are skipped; matching rows are reset to PENDING with the lease cleared. -/
def recoverStaleJob (job : BisectJob) (cutoff : Nat) (running : List Nat) : BisectJob :=
  if job.status = .running ∧ staleHeartbeat job.heartbeat_at cutoff = true
      ∧ job.attempt_count < MAX_JOB_ATTEMPTS ∧ job.id ∉ running then
    { job with status := .pending, worker_id := none, heartbeat_at := none }
  else job

/-- The shutdown path of `lifespan`: every job in this instance's
`running_jobs` whose row still reads RUNNING is reset to PENDING with the
lease cleared.  There is no `attempt_count` check on this path. -/
def shutdownResetJob (job : BisectJob) : BisectJob :=
  if job.status = .running then
    { job with status := .pending, worker_id := none, heartbeat_at := none }
  else job

/-- The clone-URL failure path of `start_job`: increment `attempt_count`; at
`MAX_JOB_ATTEMPTS` the job is marked FAILED, otherwise the row stays PENDING
for a later poll. -/
def cloneUrlFailure (job : BisectJob) (errMsg : String) : BisectJob :=
  let j := { job with attempt_count := job.attempt_count + 1 }
  if MAX_JOB_ATTEMPTS ≤ j.attempt_count then
    { j with status := .failed
             error_message := some (("Max attempts (3) exceeded. Last error: ") ++ errMsg) }
  else j

/-- A freshly inserted PENDING job as `create_bisect_job` commits it. -/
def pendingJob0 : BisectJob :=
  { id := 1
    installation_id := 7
    requested_by := some ("alice")
    repo_owner := some ("octo")
    repo_name := some ("repo")
    good_sha := "a0"
    bad_sha := "b0"
    test_command := "make test"
    docker_image := none
    status := .pending
    started_at := none
    completed_at := none
    worker_id := none
    heartbeat_at := none
    attempt_count := 0
    culprit_sha := none
    culprit_message := none
    error_message := none
    output_log := none
    created_at := 100 }

/-- Counterexample to claim C2. Selecting a pending job (`process_pending_jobs` +
`start_job`) ends with the job recorded in `running_jobs` while its row is
still PENDING with no lease fields set and `attempt_count` unchanged: the
selection and the RUNNING update are not one atomic step — the fields are
only written later by `run_bisect_job_sync` in a separate session, so an
intermediate state with the job selected but unmarked is observable. -/
theorem C2_claim_not_atomic_counterexample :
    ((startJobSelect [] pendingJob0).2.status = .pending ∧
     (startJobSelect [] pendingJob0).2.worker_id = none ∧
     (startJobSelect [] pendingJob0).2.heartbeat_at = none ∧
     (startJobSelect [] pendingJob0).2.started_at = none ∧
     (startJobSelect [] pendingJob0).2.attempt_count = 0) ∧
    pendingJob0.id ∈ (startJobSelect [] pendingJob0).1 :=
  ⟨⟨rfl, rfl, rfl, rfl, rfl⟩, List.mem_cons_self _ _⟩

/-- Claim C2 as amended. The claim of a job happens in two separate steps, not
one atomic operation: the selection commits no change to the row and only
records the job in the in-memory running map; the later first commit of
`run_bisect_job_sync` then sets `status = RUNNING`, `worker_id`,
`started_at`, `heartbeat_at = now` and `attempt_count + 1` together in that
single commit. -/
theorem C2_claim_two_phase (running : List Nat) (job : BisectJob)
    (workerId : String) (now : Nat) :
    (startJobSelect running job).2 = job ∧
    job.id ∈ (startJobSelect running job).1 ∧
    (markRunning job workerId now).status = .running ∧
    (markRunning job workerId now).worker_id = some workerId ∧
    (markRunning job workerId now).started_at = some now ∧
    (markRunning job workerId now).heartbeat_at = some now ∧
    (markRunning job workerId now).attempt_count = job.attempt_count + 1 :=
  ⟨rfl, List.mem_cons_self _ _, rfl, rfl, rfl, rfl, rfl⟩

/-- Counterexample to claim C3. A reachable violation of the lease invariant:
claim a fresh pending job, then complete it; the completion commit sets
SUCCESS and `completed_at` but leaves `worker_id` and `heartbeat_at` set. -/
theorem C3_lease_not_cleared_counterexample :
    (completeJob (markRunning pendingJob0 "w1" 5) { success := true } 9).status = .success ∧
    (completeJob (markRunning pendingJob0 "w1" 5) { success := true } 9).worker_id
      = some ("w1") ∧
    (completeJob (markRunning pendingJob0 "w1" 5) { success := true } 9).heartbeat_at
      = some 5 :=
  ⟨rfl, rfl, rfl⟩

/-- Claim C3 as amended. The completion and cancellation commits set a terminal
status and `completed_at` but leave `worker_id` and `heartbeat_at` exactly
as they were — so a job that left RUNNING by completing or being cancelled
retains its lease fields, and the claimed invariant fails; only the
stale-recovery and shutdown resets clear those fields. -/
theorem C3_lease_fields (job : BisectJob) (r : BisectResultM) (actor : String)
    (now cutoff : Nat) (running : List Nat) :
    (completeJob job r now).worker_id = job.worker_id ∧
    (completeJob job r now).heartbeat_at = job.heartbeat_at ∧
    (completeJob job r now).status = (if r.success then .success else .failed) ∧
    (∀ j2, cancelJob job actor now = .ok j2 →
        j2.status = .cancelled ∧ j2.worker_id = job.worker_id ∧
        j2.heartbeat_at = job.heartbeat_at) ∧
    (job.status = .running →
        (shutdownResetJob job).worker_id = none ∧
        (shutdownResetJob job).heartbeat_at = none) ∧
    (recoverStaleJob job cutoff running = job ∨
      ((recoverStaleJob job cutoff running).worker_id = none ∧
       (recoverStaleJob job cutoff running).heartbeat_at = none)) := by
  refine ⟨rfl, rfl, rfl, ?_, ?_, ?_⟩
  · intro j2 hj2
    rw [cancelJob] at hj2
    by_cases hs : job.status = .pending ∨ job.status = .running
    · rw [if_pos hs] at hj2
      cases hj2
      exact ⟨rfl, rfl, rfl⟩
    · rw [if_neg hs] at hj2
      cases hj2
  · intro hrun
    rw [shutdownResetJob, if_pos hrun]
    exact ⟨rfl, rfl⟩
  · by_cases hcond : job.status = .running ∧ staleHeartbeat job.heartbeat_at cutoff = true
        ∧ job.attempt_count < MAX_JOB_ATTEMPTS ∧ job.id ∉ running
    · right
      rw [recoverStaleJob, if_pos hcond]
      exact ⟨rfl, rfl⟩
    · left
      rw [recoverStaleJob, if_neg hcond]

/-- Witness for C3 (amended) on a running job claimed by worker `w1`. -/
theorem C3_lease_fields_witness :
    (completeJob (markRunning pendingJob0 "w1" 5) { success := false } 9).worker_id
      = (markRunning pendingJob0 "w1" 5).worker_id ∧
    (shutdownResetJob (markRunning pendingJob0 "w1" 5)).worker_id = none :=
  ⟨(C3_lease_fields (markRunning pendingJob0 "w1" 5) { success := false } "bob" 9 0 []).1,
   ((C3_lease_fields (markRunning pendingJob0 "w1" 5) { success := false } "bob" 9 0 []).2.2.2.2.1
      rfl).1⟩

/-- The trace refuting C4: claim, shutdown-reset, claim, shutdown-reset,
claim, shutdown-reset, claim. -/
def c4ExhaustedJob : BisectJob :=
  markRunning (shutdownResetJob (markRunning (shutdownResetJob
    (markRunning pendingJob0 "w" 1)) "w" 2)) "w" 3

/-- Counterexample to claim C4. After three claims the job is RUNNING with
`attempt_count = 3 = MAX_JOB_ATTEMPTS`; the shutdown reset nevertheless
returns it to PENDING, and a fourth claim drives `attempt_count` to
`4 > MAX_JOB_ATTEMPTS` — refuting both halves of the claim. -/
theorem C4_attempts_exceed_max_counterexample :
    c4ExhaustedJob.attempt_count = MAX_JOB_ATTEMPTS ∧
    (shutdownResetJob c4ExhaustedJob).status = .pending ∧
    (markRunning (shutdownResetJob c4ExhaustedJob) "w" 4).attempt_count
      = MAX_JOB_ATTEMPTS + 1 := by
  refine ⟨by decide, by decide, by decide⟩

/-- Claim C4 as amended. For a job whose `attempt_count` has reached
`MAX_JOB_ATTEMPTS`: the stale-recovery path leaves it untouched (its filter
requires `attempt_count < MAX_JOB_ATTEMPTS`), and a clone-URL failure marks
it FAILED; but the shutdown reset returns it to PENDING whenever it is
RUNNING, with no attempt check, and each claim increments `attempt_count`
unconditionally — so `attempt_count` is not bounded by `MAX_JOB_ATTEMPTS`
under shutdown resets. -/
theorem C4_attempt_budget (job : BisectJob) (cutoff : Nat) (running : List Nat)
    (errMsg workerId : String) (now : Nat)
    (hmax : MAX_JOB_ATTEMPTS ≤ job.attempt_count) :
    recoverStaleJob job cutoff running = job ∧
    (cloneUrlFailure job errMsg).status = .failed ∧
    (job.status = .running → (shutdownResetJob job).status = .pending) ∧
    (markRunning job workerId now).attempt_count = job.attempt_count + 1 := by
  refine ⟨?_, ?_, ?_, rfl⟩
  · rw [recoverStaleJob, if_neg]
    intro hcond
    have := hcond.2.2.1
    omega
  · rw [cloneUrlFailure]
    rw [if_pos (by simp; omega)]
  · intro hrun
    rw [shutdownResetJob, if_pos hrun]

/-- Witness for C4 (amended) at the exhausted job of the counterexample
trace (`attempt_count = 3`). -/
theorem C4_attempt_budget_witness :
    recoverStaleJob c4ExhaustedJob 0 [] = c4ExhaustedJob ∧
    (shutdownResetJob c4ExhaustedJob).status = .pending :=
  ⟨(C4_attempt_budget c4ExhaustedJob 0 [] "e" "w" 9 (by decide)).1,
   (C4_attempt_budget c4ExhaustedJob 0 [] "e" "w" 9 (by decide)).2.2.1 rfl⟩

/-- The endpoint `retry_job` (`app/api.py`): look the original up; only FAILED or
CANCELLED originals are retriable (else HTTP 400 and no insert); otherwise
insert a fresh PENDING job cloning the original's request columns, with
`attempt_count = 0`, `requested_by` the retrying user and a new
autoincrement id (`nextId`, larger than every existing id). -/
def retryJob (db : List BisectJob) (nextId : Nat) (jobId : Nat) (user : String)
    (now : Nat) : List BisectJob × Except Nat BisectJob :=
  match db.find? (fun j => j.id == jobId) with
  | none => (db, .error 404)
  | some orig =>
      if orig.status = .failed ∨ orig.status = .cancelled then
        let newJob : BisectJob :=
          { id := nextId
            installation_id := orig.installation_id
            requested_by := some user
            repo_owner := orig.repo_owner
            repo_name := orig.repo_name
            good_sha := orig.good_sha
            bad_sha := orig.bad_sha
            test_command := orig.test_command
            docker_image := orig.docker_image
            status := .pending
            started_at := none
            completed_at := none
            worker_id := none
            heartbeat_at := none
            attempt_count := 0
            culprit_sha := none
            culprit_message := none
            error_message := none
            output_log := none
            created_at := now }
        (db ++ [newJob], .ok newJob)
      else (db, .error 400)

/-- Claim C9. Retrying an existing FAILED or CANCELLED job creates a new job
with a fresh id whose request fields equal the original's, with
`attempt_count = 0` and status PENDING, and leaves the original row
unchanged (it is still found unaltered in the table); for a job in any other
status the endpoint fails with a 400 error and inserts nothing. -/
theorem C9_retry_clones_request (db : List BisectJob) (nextId jobId : Nat)
    (user : String) (now : Nat) (orig : BisectJob)
    (hfind : db.find? (fun j => j.id == jobId) = some orig) :
    (orig.status = .failed ∨ orig.status = .cancelled →
      ∃ newJob,
        retryJob db nextId jobId user now = (db ++ [newJob], .ok newJob) ∧
        newJob.id = nextId ∧
        newJob.installation_id = orig.installation_id ∧
        newJob.repo_owner = orig.repo_owner ∧
        newJob.repo_name = orig.repo_name ∧
        newJob.good_sha = orig.good_sha ∧
        newJob.bad_sha = orig.bad_sha ∧
        newJob.test_command = orig.test_command ∧
        newJob.docker_image = orig.docker_image ∧
        newJob.status = .pending ∧
        newJob.attempt_count = 0 ∧
        (retryJob db nextId jobId user now).1.find? (fun j => j.id == jobId) = some orig ∧
        ((∀ j ∈ db, j.id < nextId) → ∀ j ∈ db, j.id ≠ newJob.id)) ∧
    (¬(orig.status = .failed ∨ orig.status = .cancelled) →
      retryJob db nextId jobId user now = (db, .error 400)) := by
  constructor
  · intro hst
    simp only [retryJob, hfind]
    rw [if_pos hst]
    refine ⟨_, rfl, rfl, rfl, rfl, rfl, rfl, rfl, rfl, rfl, rfl, rfl, ?_, ?_⟩
    · simp [List.find?_append, hfind]
    · intro hlt j hj
      have := hlt j hj
      show j.id ≠ nextId
      omega
  · intro hst
    simp only [retryJob, hfind]
    rw [if_neg hst]

/-- A FAILED job for the C9 witness: a claimed pending job whose bisect
failed. -/
def failedJobEx : BisectJob :=
  completeJob (markRunning pendingJob0 "w1" 1) { success := false } 2

/-- Witness for C9 on a one-row table holding a FAILED job. -/
theorem C9_retry_clones_request_witness :
    (retryJob [failedJobEx] 2 1 "carol" 9).2.isOk = true ∧
    (retryJob [failedJobEx] 2 1 "carol" 9).1.find? (fun j => j.id == 1)
      = some failedJobEx := by
  obtain ⟨h1, -⟩ :=
    C9_retry_clones_request [failedJobEx] 2 1 "carol" 9 failedJobEx (by decide)
  obtain ⟨nj, heq, hrest⟩ := h1 (Or.inl rfl)
  refine ⟨by rw [heq]; rfl, ?_⟩
  exact hrest.2.2.2.2.2.2.2.2.2.2.1

end BisectBot
